import Mathlib

/-!
# Verification of the LanceDB vector-index engine (`LanceDbIndex.ts`)

A shallow embedding of `src/core/indexing/LanceDbIndex.ts`: the compute
pipeline (`computeChunks`), the four-phase refresh coordinator (`update`),
and the retriever (`retrieve` / `_retrieveForTag`).  Stateful TypeScript is
modelled by explicit state passing; the async generators are modelled as
pure functions producing the full list of yielded events plus an effect
trace; fallible calls (the embedding provider, the remote cache) return
`Except`.  Vector components and `_distance` values are modelled as `ℚ`;
`uuidv4()` is modelled as a fresh counter (only freshness matters).
The sqlite `SELECT ... WHERE uuid in (...)` is modelled as a filter of the
cache in insertion order (sqlite returns rows in table order, and permits
an empty `IN ()` list, which matches the filter over an empty uuid list).
-/

namespace LanceDb

abbrev Vec := List ℚ

structure PathAndCacheKey where
  path : String
  cacheKey : String
deriving DecidableEq, Repr

structure Chunk where
  filepath : String
  content : String
  startLine : Int
  endLine : Int
deriving DecidableEq, Repr

instance : Inhabited Chunk := ⟨⟨"", "", 0, 0⟩⟩

/-- A row of the per-tag vector table (field names lowercase, as in the
`LanceDbRow` interface). -/
structure LanceDbRow where
  uuid : Nat
  path : String
  cachekey : String
  vector : Vec
deriving DecidableEq, Repr

/-- A record of the durable sqlite embedding cache (`lance_db_cache`). -/
structure CacheRecord where
  uuid : Nat
  cacheKey : String
  path : String
  artifact_id : String
  vector : Vec
  startLine : Int
  endLine : Int
  contents : String
deriving DecidableEq, Repr

/-- `artifactId` getter: `vectordb::<provider-id>`. -/
def artifactId (providerId : String) : String := "vectordb::" ++ providerId

structure BranchAndDir where
  branch : String
  directory : String
deriving DecidableEq, Repr

structure IndexTag where
  branch : String
  directory : String
  artifactIdOfTag : String
deriving DecidableEq, Repr

/-- Modelled from the spec: `tagToString` (from `refreshIndex.ts`, which is
not part of the sources) concatenates the tag components with a fixed
separator. -/
def tagToString (t : IndexTag) : String :=
  t.directory ++ "::" ++ t.branch ++ "::" ++ t.artifactIdOfTag

def allowedTagChar (c : Char) : Bool :=
  c.isAlphanum || c = '_' || c = '-' || c = '.'

/-- `tableNameForTag`: sanitize the tag string by stripping every character
outside `[A-Za-z0-9_\-.]` (the regex replace with the empty string). -/
def tableNameForTag (t : IndexTag) : String :=
  String.mk ((tagToString t).toList.filter allowedTagChar)

/-- Modelled from the spec: `getBasename` (from `util/index.ts`, not in the
sources) returns the final path component.  Only used in progress
descriptions. -/
def getBasename (p : String) : String := ((p.splitOn "/").getLast?).getD p

/-- The injected collaborators of the compute pipeline: the file reader,
the chunker (`chunkDocument`, taking filepath, contents and digest), and
the embedding provider.  `embed` may throw (`Except.error`) or return a
batch whose elements may be `undefined` (`none`). -/
structure Env where
  readFile : String → String
  chunkDocument : String → String → String → List Chunk
  embed : List String → Except Unit (List (Option Vec))

/-- An event yielded by the `computeChunks` async generator: either a
per-chunk tuple `(progress, row, {startLine, endLine, contents}, desc)` or
the end-of-file marker carrying the originating `PathAndCacheKey`. -/
inductive ComputeEvent where
  | row (progress : ℚ) (r : LanceDbRow) (startLine endLine : Int)
      (contents : String) (desc : String)
  | eof (item : PathAndCacheKey)
deriving DecidableEq, Repr

def ComputeEvent.isRow : ComputeEvent → Bool
  | .row _ _ _ _ _ _ => true
  | .eof _ => false

/-- The chunk-collection loop of `computeChunks`: push chunks until one
with empty content appears (the source tests `chunk.content.length == 0`,
i.e. emptiness), in which case stop and record `hasEmptyChunks`. -/
def collectChunks : List Chunk → List Chunk × Bool
  | [] => ([], false)
  | c :: rest =>
    if c.content = "" then ([], true)
    else
      let T := collectChunks rest
      (c :: T.1, T.2)

/-- One iteration of the `computeChunks` loop for the file at index `i` of
`items` (`N = items.length`), with `u` the next fresh uuid.  Returns the
events yielded for this file and the next uuid, or `Except.error` when the
embedding batch contains an `undefined` element (the generator throws). -/
def fileStep (env : Env) (N i : Nat) (item : PathAndCacheKey) (u : Nat) :
    Except Unit (List ComputeEvent × Nat) :=
  let content := env.readFile item.path
  let C := collectChunks (env.chunkDocument item.path content item.cacheKey)
  if C.2 then .ok ([], u)
  else if 20 < C.1.length then .ok ([], u)
  else
    match env.embed (C.1.map (·.content)) with
    | .error _ => .ok ([], u)
    | .ok embeddings =>
      if embeddings.any (fun e => e.isNone) then .error ()
      else
        let evts := (List.range C.1.length).map (fun (j : Nat) =>
          ComputeEvent.row (((i : ℚ) + (j : ℚ) / (C.1.length : ℚ)) / (N : ℚ))
            ⟨u + j, item.path, item.cacheKey, ((embeddings.getD j none).getD [])⟩
            (C.1.getD j default).startLine (C.1.getD j default).endLine
            (C.1.getD j default).content
            ("Indexing " ++ getBasename (C.1.getD j default).filepath))
        .ok (evts ++ [ComputeEvent.eof item], u + C.1.length)

/-- The `computeChunks` generator over the (index, item) pairs: per-file
events are concatenated; a throwing file cuts the stream (the `Bool`
records that the generator threw). -/
def computeChunksAux (env : Env) (N : Nat) :
    List (Nat × PathAndCacheKey) → Nat → List ComputeEvent × Nat × Bool
  | [], u => ([], u, false)
  | (i, item) :: rest, u =>
    match fileStep env N i item u with
    | .error _ => ([], u, true)
    | .ok (evts, u') =>
      let T := computeChunksAux env N rest u'
      (evts ++ T.1, T.2.1, T.2.2)

def computeChunks (env : Env) (items : List PathAndCacheKey) (u : Nat) :
    List ComputeEvent × Nat × Bool :=
  computeChunksAux env items.length items.enum u

/-! ## The `update` coordinator -/

inductive IndexResultType where
  | Compute
  | AddTag
  | RemoveTag
  | Delete
deriving DecidableEq, Repr

/-- The four disjoint work lists handed to `update`. -/
structure RefreshIndexResults where
  compute : List PathAndCacheKey
  addTag : List PathAndCacheKey
  removeTag : List PathAndCacheKey
  del : List PathAndCacheKey
deriving DecidableEq, Repr

/-- A progress event yielded by `update` (an `IndexingProgressUpdate`). -/
structure ProgressEvent where
  progress : ℚ
  desc : String
  status : String
deriving DecidableEq, Repr

/-- An externally observable effect of `update`, in order of occurrence:
sqlite cache insert, vector-table create/add/predicate-delete, sqlite
cache delete, and `markComplete` invocation. -/
inductive UEffect where
  | cacheInsert (r : CacheRecord)
  | tableCreate (rows : List LanceDbRow)
  | tableAdd (rows : List LanceDbRow)
  | tableDelete (cachekey path : String)
  | cacheDelete (cacheKey path artifact : String)
  | mark (items : List PathAndCacheKey) (t : IndexResultType)
deriving DecidableEq, Repr

def UEffect.isCacheInsert : UEffect → Bool
  | .cacheInsert _ => true
  | _ => false

def UEffect.isTableWrite : UEffect → Bool
  | .tableCreate _ => true
  | .tableAdd _ => true
  | _ => false

def UEffect.isTableDelete : UEffect → Bool
  | .tableDelete _ _ => true
  | _ => false

/-- The mutable state of one `update` call: whether the `table` local has
been opened, the `needToCreateTable` flag, the sqlite cache contents in
insertion order, the next fresh uuid and `accumulatedProgress`. -/
structure UState where
  opened : Bool
  needToCreate : Bool
  cache : List CacheRecord
  uuid : Nat
  prog : ℚ
deriving DecidableEq, Repr

/-- `addComputedLanceDbRows`: lazily create or open the table, add the
computed rows when non-empty, then mark the item complete. -/
def addComputedLanceDbRows (tableExists0 : Bool) (st : UState)
    (item : PathAndCacheKey) (rows : List LanceDbRow) : UState × List UEffect :=
  if st.opened then
    (st, (if 0 < rows.length then [UEffect.tableAdd rows] else []) ++
      [UEffect.mark [item] IndexResultType.Compute])
  else if tableExists0 then
    ({ st with opened := true, needToCreate := false },
      (if 0 < rows.length then [UEffect.tableAdd rows] else []) ++
      [UEffect.mark [item] IndexResultType.Compute])
  else if 0 < rows.length then
    ({ st with opened := true, needToCreate := false },
      [UEffect.tableCreate rows, UEffect.mark [item] IndexResultType.Compute])
  else
    (st, [UEffect.mark [item] IndexResultType.Compute])

/-- A chunk of a remote-cache response entry. -/
structure RemoteChunk where
  vector : Vec
  startLine : Int
  endLine : Int
  contents : String
deriving DecidableEq, Repr

/-- Processing of one `Object.entries(resp.files)` entry of the remote
short-circuit: resolve the path from the request set (drop and warn when
unknown), insert one cache record per chunk, then hand the rows to
`addComputedLanceDbRows`. -/
def remoteEntryStep (artifact : String) (tableExists0 : Bool)
    (compute : List PathAndCacheKey) (st : UState)
    (entry : String × List RemoteChunk) : UState × List UEffect :=
  match compute.find? (fun item => item.cacheKey == entry.1) with
  | none => (st, [])
  | some found =>
    let rows := entry.2.enum.map (fun (p : Nat × RemoteChunk) =>
      LanceDbRow.mk (st.uuid + p.1) found.path entry.1 p.2.vector)
    let recs := entry.2.enum.map (fun (p : Nat × RemoteChunk) =>
      CacheRecord.mk (st.uuid + p.1) entry.1 found.path artifact p.2.vector
        p.2.startLine p.2.endLine p.2.contents)
    let st1 := { st with uuid := st.uuid + entry.2.length, cache := st.cache ++ recs }
    let (st2, effs) := addComputedLanceDbRows tableExists0 st1 ⟨found.path, entry.1⟩ rows
    (st2, recs.map UEffect.cacheInsert ++ effs)

def remoteEntriesLoop (artifact : String) (tableExists0 : Bool)
    (compute : List PathAndCacheKey) :
    UState → List (String × List RemoteChunk) → UState × List UEffect
  | st, [] => (st, [])
  | st, e :: rest =>
    let S := remoteEntryStep artifact tableExists0 compute st e
    let T := remoteEntriesLoop artifact tableExists0 compute S.1 rest
    (T.1, S.2 ++ T.2)

/-- The remote short-circuit phase: when a connected client is configured,
fetch precomputed embeddings for the `compute` cache keys; on success
process each response entry and filter answered items out of `compute`;
any error is caught and logged, leaving `compute` untouched. -/
def remotePhase (artifact : String) (tableExists0 : Bool)
    (remote : Option (List String → Except Unit (List (String × List RemoteChunk))))
    (compute : List PathAndCacheKey) (st : UState) :
    UState × List UEffect × List PathAndCacheKey :=
  match remote with
  | none => (st, [], compute)
  | some getFromIndexCache =>
    match getFromIndexCache (compute.map (·.cacheKey)) with
    | .error _ => (st, [], compute)
    | .ok files =>
      let T := remoteEntriesLoop artifact tableExists0 compute st files
      (T.1, T.2,
        compute.filter (fun item => (files.find? (fun e => e.1 == item.cacheKey)).isNone))

/-- The consumption loop of `update` over the events of `computeChunks`:
a row event is cached (insert), sets `accumulatedProgress` to
`progress * 0.9` and yields; an end-of-file marker flushes the per-file
buffer via `addComputedLanceDbRows`. -/
def computePhase (artifact : String) (tableExists0 : Bool) :
    UState → List LanceDbRow → List ComputeEvent →
      UState × List ProgressEvent × List UEffect
  | st, _, [] => (st, [], [])
  | st, buf, .row p r sl el cts d :: rest =>
    let cr : CacheRecord := ⟨r.uuid, r.cachekey, r.path, artifact, r.vector, sl, el, cts⟩
    let st1 : UState := { st with cache := st.cache ++ [cr], prog := p * (9 / 10) }
    let T := computePhase artifact tableExists0 st1 (buf ++ [r]) rest
    (T.1, ⟨st1.prog, d, "indexing"⟩ :: T.2.1, UEffect.cacheInsert cr :: T.2.2)
  | st, buf, .eof item :: rest =>
    let A := addComputedLanceDbRows tableExists0 st item buf
    let T := computePhase artifact tableExists0 A.1 [] rest
    (T.1, T.2.1, A.2 ++ T.2.2)

/-- Generic per-item loop of the tail phases (add-tag, remove-tag/delete,
delete): concatenates the events and effects of `step` over the list. -/
def phaseLoop (step : UState → PathAndCacheKey → UState × List ProgressEvent × List UEffect) :
    UState → List PathAndCacheKey → UState × List ProgressEvent × List UEffect
  | st, [] => (st, [], [])
  | st, item :: rest =>
    let S := step st item
    let T := phaseLoop step S.1 rest
    (T.1, S.2.1 ++ T.2.1, S.2.2 ++ T.2.2)

/-- One add-tag item: read back the cache records for
`(cacheKey, path, artifact_id)`, rebuild rows reusing uuid and vector,
insert them (creating or opening the table as needed), mark complete and
yield progress (`+= 1 / addTag.length / 3`). -/
def addTagStep (artifact : String) (L : Nat) (st : UState) (item : PathAndCacheKey) :
    UState × List ProgressEvent × List UEffect :=
  let cachedItems := st.cache.filter (fun cr =>
    cr.cacheKey == item.cacheKey && cr.path == item.path && cr.artifact_id == artifact)
  let lanceRows := cachedItems.map (fun cr =>
    LanceDbRow.mk cr.uuid item.path item.cacheKey cr.vector)
  let S : UState × List UEffect :=
    if 0 < lanceRows.length then
      if st.needToCreate then
        ({ st with opened := true, needToCreate := false }, [UEffect.tableCreate lanceRows])
      else if !st.opened then
        ({ st with opened := true, needToCreate := false }, [UEffect.tableAdd lanceRows])
      else (st, [UEffect.tableAdd lanceRows])
    else (st, [])
  let st2 : UState := { S.1 with prog := S.1.prog + 1 / (3 * (L : ℚ)) }
  (st2, [⟨st2.prog, "Indexing " ++ getBasename item.path, "indexing"⟩],
    S.2 ++ [UEffect.mark [item] IndexResultType.AddTag])

/-- One remove-tag/delete item inside the table loop: `table?.delete`
issues the predicate deletion only when the table handle is open; progress
advances by `1 / toDel.length / 3` regardless. -/
def toDelStep (M : Nat) (st : UState) (item : PathAndCacheKey) :
    UState × List ProgressEvent × List UEffect :=
  let effs := if st.opened then [UEffect.tableDelete item.cacheKey item.path] else []
  let st1 := { st with prog := st.prog + 1 / (3 * (M : ℚ)) }
  (st1, [⟨st1.prog, "Stashing " ++ getBasename item.path, "indexing"⟩], effs)

/-- One delete item: remove the matching records from the sqlite cache and
advance progress by `1 / del.length / 3`. -/
def delStep (artifact : String) (K : Nat) (st : UState) (item : PathAndCacheKey) :
    UState × List ProgressEvent × List UEffect :=
  let st1 := { st with
    cache := st.cache.filter (fun cr =>
      !(cr.cacheKey == item.cacheKey && cr.path == item.path && cr.artifact_id == artifact)),
    prog := st.prog + 1 / (3 * (K : ℚ)) }
  (st1, [⟨st1.prog, "Removing " ++ getBasename item.path, "indexing"⟩],
    [UEffect.cacheDelete item.cacheKey item.path artifact])

/-- The environment of one `update` call: the injected collaborators, the
optional connected remote cache client, whether a table named
`sanitize(tag)` already exists, the initial sqlite cache contents, and the
embedding provider id. -/
structure UpdateEnv where
  env : Env
  remote : Option (List String → Except Unit (List (String × List RemoteChunk)))
  tableExists : Bool
  cache0 : List CacheRecord
  providerId : String

/-- The observable outcome of one `update` call: the yielded progress
events, the effect trace, the final sqlite cache contents, and whether the
call threw. -/
structure UpdateResult where
  events : List ProgressEvent
  trace : List UEffect
  cache : List CacheRecord
  threw : Bool
deriving DecidableEq, Repr

/-- The initial state of one `update` call. -/
def initState (uenv : UpdateEnv) : UState :=
  ⟨false, !uenv.tableExists, uenv.cache0, 0, 0⟩

/-- Phase 5 of `update`: the add-tag loop. -/
def tailA (uenv : UpdateEnv) (results : RefreshIndexResults) (st : UState) :
    UState × List ProgressEvent × List UEffect :=
  phaseLoop (addTagStep (artifactId uenv.providerId) results.addTag.length) st results.addTag

/-- Phase 6 of `update`: the remove-tag/delete table loop, skipped when
`needToCreateTable` still holds. -/
def tailD (results : RefreshIndexResults) (st : UState) :
    UState × List ProgressEvent × List UEffect :=
  if st.needToCreate then (st, [], [])
  else phaseLoop (toDelStep (results.removeTag ++ results.del).length) st
    (results.removeTag ++ results.del)

/-- Phase 7 of `update`: the delete-from-cache loop. -/
def tailE (uenv : UpdateEnv) (results : RefreshIndexResults) (st : UState) :
    UState × List ProgressEvent × List UEffect :=
  phaseLoop (delStep (artifactId uenv.providerId) results.del.length) st results.del

/-- The `update` coordinator: remote short-circuit, local compute, add-tag,
remove-tag/delete from the table, delete from the cache, terminal event. -/
def update (uenv : UpdateEnv) (results : RefreshIndexResults) : UpdateResult :=
  let artifact := artifactId uenv.providerId
  let R := remotePhase artifact uenv.tableExists uenv.remote results.compute (initState uenv)
  let C := computeChunks uenv.env R.2.2 R.1.uuid
  let P := computePhase artifact uenv.tableExists { R.1 with uuid := C.2.1 } [] C.1
  if C.2.2 then
    ⟨P.2.1, R.2.1 ++ P.2.2, P.1.cache, true⟩
  else
    let A := tailA uenv results P.1
    let D := tailD results A.1
    let E := tailE uenv results D.1
    ⟨P.2.1 ++ A.2.1 ++ D.2.1 ++ E.2.1 ++
        [⟨1, "Completed Calculating Embeddings", "done"⟩],
      R.2.1 ++ P.2.2 ++ A.2.2 ++ D.2.2 ++
        [UEffect.mark results.removeTag IndexResultType.RemoveTag] ++ E.2.2 ++
        [UEffect.mark results.del IndexResultType.Delete],
      E.1.cache, false⟩

/-! ## The retriever -/

/-- A vector-search hit: a table row together with its `_distance`. -/
structure Hit where
  uuid : Nat
  path : String
  cachekey : String
  dist : ℚ
deriving DecidableEq, Repr

/-- The comparator of the `allResults.sort((a, b) => a._distance - b._distance)`
call. -/
def hitLE (a b : Hit) : Prop := a.dist ≤ b.dist

instance : DecidableRel hitLE := fun a b => inferInstanceAs (Decidable (a.dist ≤ b.dist))

instance : IsTotal Hit hitLE := ⟨fun a b => le_total a.dist b.dist⟩

instance : IsTrans Hit hitLE := ⟨fun _ _ _ => le_trans⟩

/-- The environment of a `retrieve` call: the provider, the set of table
names present in the vector store, the distance-ranked search results of
each table, and the sqlite cache contents (in table order). -/
structure RetrieveEnv where
  embed : List String → Except Unit (List (Option Vec))
  tables : List String
  search : String → Vec → List Hit
  cache : List CacheRecord
  providerId : String

/-- A chunk as returned by `retrieve`. -/
structure RetrievedChunk where
  digest : String
  filepath : String
  startLine : Int
  endLine : Int
  index : Nat
  content : String
deriving DecidableEq, Repr

/-- The projection of a cache record onto the returned chunk shape. -/
def recordToChunk (d : CacheRecord) : RetrievedChunk :=
  ⟨d.cacheKey, d.path, d.startLine, d.endLine, 0, d.contents⟩

/-- `_retrieveForTag`: when a table exists under the sanitized tag name,
run the vector search; with a directory filter, post-filter by
`path LIKE '<dir>%'` and limit to 300; otherwise limit to `n`; finally
`slice(0, n)`. -/
def retrieveForTag (env : RetrieveEnv) (tag : IndexTag) (n : Nat)
    (directory : Option String) (vector : Vec) : List Hit :=
  let tableName := tableNameForTag tag
  if tableName ∉ env.tables then []
  else
    let base := env.search tableName vector
    let results :=
      match directory with
      | some dir => (base.filter (fun (h : Hit) => h.path.startsWith dir)).take 300
      | none => base.take n
    results.take n

/-- The per-tag hits of one `retrieve` call, concatenated. -/
def allHits (env : RetrieveEnv) (n : Nat) (tags : List BranchAndDir)
    (filterDirectory : Option String) (vector : Vec) : List Hit :=
  (tags.map (fun t =>
    retrieveForTag env ⟨t.branch, t.directory, artifactId env.providerId⟩
      n filterDirectory vector)).flatten

/-- The merged hit list after `sort by _distance` and `slice(0, n)`. -/
def topHits (env : RetrieveEnv) (n : Nat) (tags : List BranchAndDir)
    (filterDirectory : Option String) (vector : Vec) : List Hit :=
  (List.insertionSort hitLE (allHits env n tags filterDirectory vector)).take n

/-- `retrieve`: embed the query, search every tag, merge and sort the hits
by `_distance`, truncate to `n`, then join the surviving uuids against the
sqlite cache (`SELECT ... WHERE uuid in (...)`, which returns matching
records in table order) and project to chunks. -/
def retrieve (env : RetrieveEnv) (query : String) (n : Nat)
    (tags : List BranchAndDir) (filterDirectory : Option String) :
    Except Unit (List RetrievedChunk) :=
  match env.embed [query] with
  | .error _ => .error ()
  | .ok embs =>
    let vector := (embs.getD 0 none).getD []
    let sorted := topHits env n tags filterDirectory vector
    let data := env.cache.filter (fun d => sorted.any (fun (h : Hit) => h.uuid == d.uuid))
    .ok (data.map recordToChunk)

/-! ## Derived notions used to state the claims -/

/-- The progress values emitted by a uniform-increment phase started at
`p`: `p + δ, p + 2δ, …, p + nδ`. -/
def progressSeq (p δ : ℚ) : Nat → List ℚ
  | 0 => []
  | n + 1 => (p + δ) :: progressSeq (p + δ) δ n

/-- The `_distance` values of the vector-search hits corresponding to a
returned chunk: the hit distances of every cache record that projects to
this chunk. -/
def chunkHitDists (cache : List CacheRecord) (hits : List Hit) (c : RetrievedChunk) : List ℚ :=
  ((cache.filter (fun d => recordToChunk d == c)).map (fun d =>
    (hits.filter (fun h => h.uuid == d.uuid)).map (·.dist))).flatten

/-- The row events emitted by `computeChunks` for the file at index `i`
when its collected chunk list is `out` and the provider returned the
vectors `vs`. -/
def fileRowEvents (N i : Nat) (item : PathAndCacheKey) (u : Nat)
    (out : List Chunk) (vs : List Vec) : List ComputeEvent :=
  (List.range out.length).map (fun (j : Nat) =>
    ComputeEvent.row (((i : ℚ) + (j : ℚ) / (out.length : ℚ)) / (N : ℚ))
      ⟨u + j, item.path, item.cacheKey, vs.getD j []⟩
      (out.getD j default).startLine (out.getD j default).endLine
      (out.getD j default).content
      ("Indexing " ++ getBasename (out.getD j default).filepath))

/-- The cache records that the `update` consumption loop inserts for a
list of compute events (one per row event, none for markers). -/
def rowRecords (artifact : String) (evts : List ComputeEvent) : List CacheRecord :=
  evts.filterMap (fun e => match e with
    | .row _ r sl el cts _ => some ⟨r.uuid, r.cachekey, r.path, artifact, r.vector, sl, el, cts⟩
    | .eof _ => none)

/-- The cache records produced by computing `item` (chunks `out`, vectors
`vs`) at the start of an `update` call (uuids minted from 0). -/
def computedRecords (artifact : String) (item : PathAndCacheKey)
    (out : List Chunk) (vs : List Vec) : List CacheRecord :=
  (List.range out.length).map (fun (j : Nat) =>
    ⟨j, item.cacheKey, item.path, artifact, vs.getD j [],
      (out.getD j default).startLine, (out.getD j default).endLine,
      (out.getD j default).content⟩)

/-- The vector-table rows the add-tag phase reconstructs from those cache
records (uuid and vector reused). -/
def reusedRows (artifact : String) (item : PathAndCacheKey)
    (out : List Chunk) (vs : List Vec) : List LanceDbRow :=
  (computedRecords artifact item out vs).map (fun cr =>
    LanceDbRow.mk cr.uuid item.path item.cacheKey cr.vector)

/-- The number of chunks of a retrieval outcome (0 for a failure). -/
def exceptLength : Except Unit (List RetrievedChunk) → Nat
  | .error _ => 0
  | .ok l => l.length

/-- The retrieval-order property stated by the spec: the returned chunks
are ordered by ascending `_distance` of their corresponding hits. -/
def orderedByHitDistance (cache : List CacheRecord) (hits : List Hit)
    (res : List RetrievedChunk) : Prop :=
  res.Pairwise (fun a b => ∀ x ∈ chunkHitDists cache hits a, ∀ y ∈ chunkHitDists cache hits b, x ≤ y)

instance (cache : List CacheRecord) (hits : List Hit) (res : List RetrievedChunk) :
    Decidable (orderedByHitDistance cache hits res) := by
  unfold orderedByHitDistance
  exact List.instDecidablePairwise res

/-! ## Concrete instances used by witnesses and counterexamples -/

/-- A chunker output of `n` non-empty chunks. -/
def nChunks (fp : String) (n : Nat) : List Chunk :=
  (List.range n).map (fun j => ⟨fp, "c" ++ toString j, (j : Int), (j : Int)⟩)

/-- A collaborator environment whose chunker yields two non-empty chunks
for every file and whose provider embeds everything to `[1]`. -/
def twoChunkEnv : Env where
  readFile := fun _ => "text"
  chunkDocument := fun fp _ _ => [⟨fp, "aa", 0, 1⟩, ⟨fp, "bb", 2, 3⟩]
  embed := fun texts => .ok (texts.map (fun _ => some [(1 : ℚ)]))

def uenvC1 : UpdateEnv := ⟨twoChunkEnv, none, false, [], "p1"⟩

def resC1 : RefreshIndexResults := ⟨[⟨"a.ts", "k1"⟩], [], [], [⟨"b.ts", "k2"⟩]⟩

def resTailOnly : RefreshIndexResults :=
  ⟨[], [⟨"a.ts", "k1"⟩], [⟨"b.ts", "k2"⟩], [⟨"c.ts", "k3"⟩]⟩

def tagMainDir : BranchAndDir := ⟨"main", "dir"⟩

def recA : CacheRecord := ⟨1, "ka", "a.ts", artifactId "p1", [1], 0, 1, "A"⟩

def recB : CacheRecord := ⟨2, "kb", "b.ts", artifactId "p1", [1], 0, 1, "B"⟩

/-- A retrieval environment in which the closest hit (`uuid 2`) was cached
after the farther one (`uuid 1`). -/
def renvCacheOrder : RetrieveEnv where
  embed := fun texts => .ok (texts.map (fun _ => some [(1 : ℚ)]))
  tables := [tableNameForTag ⟨"main", "dir", artifactId "p1"⟩]
  search := fun _ _ => [⟨2, "b.ts", "kb", 0⟩, ⟨1, "a.ts", "ka", 1⟩]
  cache := [recA, recB]
  providerId := "p1"

/-- A collaborator environment with one 21-chunk file and 20-chunk files
otherwise. -/
def envC4 : Env where
  readFile := fun _ => ""
  chunkDocument := fun fp _ _ => if fp = "big.ts" then nChunks fp 21 else nChunks fp 20
  embed := fun texts => .ok (texts.map (fun _ => some [(1 : ℚ)]))

/-- A collaborator environment whose provider raises on 1-text batches and
returns an `undefined` element on other batches. -/
def envC5 : Env where
  readFile := fun _ => ""
  chunkDocument := fun fp _ _ => if fp = "err.ts" then nChunks fp 1 else nChunks fp 2
  embed := fun texts =>
    if texts.length = 1 then .error () else .ok [some [(1 : ℚ)], none]

def uenvC5 : UpdateEnv := ⟨envC5, none, false, [], "p1"⟩

def resC5 : RefreshIndexResults := ⟨[⟨"fat.ts", "k2"⟩], [], [], []⟩

/-- A remote cache answering `k1` and offering an unrequested `kx`. -/
def remoteOkClient : List String → Except Unit (List (String × List RemoteChunk)) :=
  fun _ => .ok [("k1", [⟨[1], 0, 1, "A"⟩]), ("kx", [⟨[1], 2, 3, "X"⟩])]

/-- A remote cache whose exchange raises. -/
def remoteErrClient : List String → Except Unit (List (String × List RemoteChunk)) :=
  fun _ => .error ()

/-- The chunker output of `twoChunkEnv` for `a.ts`. -/
def outC7 : List Chunk := [⟨"a.ts", "aa", 0, 1⟩, ⟨"a.ts", "bb", 2, 3⟩]

/-- The vectors `twoChunkEnv`'s provider returns for those two chunks. -/
def vsC7 : List Vec := [[1], [1]]

def computeC9 : List PathAndCacheKey := [⟨"a.ts", "k1"⟩, ⟨"b.ts", "k2"⟩]

def stC9 : UState := ⟨false, true, [], 0, 0⟩

def uenvC10 : UpdateEnv := ⟨twoChunkEnv, none, false, [recA, recB], "p1"⟩

def resC10 : RefreshIndexResults := ⟨[], [], [⟨"x.ts", "kx"⟩], [⟨"a.ts", "ka"⟩]⟩

/-! # Theorems

## Progress lemmas -/

theorem progressSeq_mem {δ : ℚ} (hδ : 0 ≤ δ) :
    ∀ (n : Nat) (p x : ℚ), x ∈ progressSeq p δ n → p ≤ x ∧ x ≤ p + n * δ := by
  intro n
  induction n with
  | zero => intro p x hx; simp [progressSeq] at hx
  | succ m ih =>
    intro p x hx
    rw [progressSeq, List.mem_cons] at hx
    rcases hx with h | h
    · subst h
      have h0 : (0 : ℚ) ≤ (m : ℚ) * δ :=
        mul_nonneg (by exact_mod_cast Nat.zero_le m) hδ
      constructor
      · linarith
      · push_cast
        linarith
    · obtain ⟨h1, h2⟩ := ih (p + δ) x h
      constructor
      · linarith
      · push_cast
        linarith

theorem progressSeq_sorted {δ : ℚ} (hδ : 0 ≤ δ) :
    ∀ (n : Nat) (p : ℚ), (progressSeq p δ n).Sorted (· ≤ ·) := by
  intro n
  induction n with
  | zero => intro p; simp [progressSeq]
  | succ m ih =>
    intro p
    rw [progressSeq, List.sorted_cons]
    exact ⟨fun x hx => (progressSeq_mem hδ m (p + δ) x hx).1, ih (p + δ)⟩

theorem phaseLoop_progress
    (step : UState → PathAndCacheKey → UState × List ProgressEvent × List UEffect)
    (δ : ℚ)
    (hstep : ∀ st item, ((step st item).1).prog = st.prog + δ ∧
      ((step st item).2.1).map (·.progress) = [st.prog + δ]) :
    ∀ (items : List PathAndCacheKey) (st : UState),
      ((phaseLoop step st items).1).prog = st.prog + items.length * δ ∧
      ((phaseLoop step st items).2.1).map (·.progress) = progressSeq st.prog δ items.length := by
  intro items
  induction items with
  | nil => intro st; simp [phaseLoop, progressSeq]
  | cons item rest ih =>
    intro st
    obtain ⟨h1, h2⟩ := hstep st item
    obtain ⟨ih1, ih2⟩ := ih (step st item).1
    constructor
    · simp only [phaseLoop, List.length_cons]
      rw [ih1, h1]
      push_cast
      ring
    · simp only [phaseLoop, List.map_append, List.length_cons]
      rw [ih2, h2, h1, progressSeq]
      rfl

theorem addTagStep_progress (artifact : String) (L : Nat) (st : UState)
    (item : PathAndCacheKey) :
    ((addTagStep artifact L st item).1).prog = st.prog + 1 / (3 * (L : ℚ)) ∧
    ((addTagStep artifact L st item).2.1).map (·.progress) = [st.prog + 1 / (3 * (L : ℚ))] := by
  unfold addTagStep
  dsimp only
  split
  · split
    · exact ⟨rfl, rfl⟩
    · split
      · exact ⟨rfl, rfl⟩
      · exact ⟨rfl, rfl⟩
  · exact ⟨rfl, rfl⟩

theorem toDelStep_progress (M : Nat) (st : UState) (item : PathAndCacheKey) :
    ((toDelStep M st item).1).prog = st.prog + 1 / (3 * (M : ℚ)) ∧
    ((toDelStep M st item).2.1).map (·.progress) = [st.prog + 1 / (3 * (M : ℚ))] :=
  ⟨rfl, rfl⟩

theorem delStep_progress (artifact : String) (K : Nat) (st : UState)
    (item : PathAndCacheKey) :
    ((delStep artifact K st item).1).prog = st.prog + 1 / (3 * (K : ℚ)) ∧
    ((delStep artifact K st item).2.1).map (·.progress) = [st.prog + 1 / (3 * (K : ℚ))] :=
  ⟨rfl, rfl⟩

theorem inv3_nonneg (n : Nat) : (0 : ℚ) ≤ 1 / (3 * (n : ℚ)) := by
  apply div_nonneg
  · norm_num
  · positivity

theorem natmul_inv3_le (n : Nat) : (n : ℚ) * (1 / (3 * (n : ℚ))) ≤ 1 / 3 := by
  rcases Nat.eq_zero_or_pos n with h | h
  · subst h; norm_num
  · have hn : ((n : ℚ)) ≠ 0 := by
      exact_mod_cast Nat.pos_iff_ne_zero.mp h
    have : (n : ℚ) * (1 / (3 * (n : ℚ))) = 1 / 3 := by
      field_simp
      ring
    linarith

theorem sorted_append_le {l₁ l₂ : List ℚ} (c : ℚ)
    (h₁ : l₁.Sorted (· ≤ ·)) (h₂ : l₂.Sorted (· ≤ ·))
    (hb₁ : ∀ x ∈ l₁, x ≤ c) (hb₂ : ∀ y ∈ l₂, c ≤ y) :
    (l₁ ++ l₂).Sorted (· ≤ ·) := by
  exact List.pairwise_append.mpr ⟨h₁, h₂, fun a ha b hb => le_trans (hb₁ a ha) (hb₂ b hb)⟩

theorem update_events_compute_nil (uenv : UpdateEnv) (results : RefreshIndexResults)
    (hr : uenv.remote = none) (hc : results.compute = []) :
    (update uenv results).events =
      (tailA uenv results (initState uenv)).2.1 ++
      (tailD results (tailA uenv results (initState uenv)).1).2.1 ++
      (tailE uenv results (tailD results (tailA uenv results (initState uenv)).1).1).2.1 ++
      [⟨1, "Completed Calculating Embeddings", "done"⟩] := by
  unfold update
  rw [hr, hc]
  rfl

/-- Claim C1 (amended): with no compute work (an empty `results.compute`
and no connected remote client) the progress values emitted by `update`
are monotonically non-decreasing and bounded by 1.  (The original claim,
over arbitrary `results`, is refuted by the counterexample below: the
three tail phases each add up to 1/3 on top of the compute phase's 0.9.) -/
theorem C1_update_progress_monotone_bounded (uenv : UpdateEnv)
    (results : RefreshIndexResults)
    (hr : uenv.remote = none) (hc : results.compute = []) :
    ((update uenv results).events.map (·.progress)).Sorted (· ≤ ·) ∧
    ∀ p ∈ (update uenv results).events.map (·.progress), p ≤ 1 := by
  have hev := update_events_compute_nil uenv results hr hc
  set st0 := initState uenv with hst0
  set A := tailA uenv results st0 with hAdef
  set D := tailD results A.1 with hDdef
  set E := tailE uenv results D.1 with hEdef
  have h0 : st0.prog = 0 := rfl
  set L1 := results.addTag.length with hL1
  set L3 := results.del.length with hL3
  set d1 : ℚ := 1 / (3 * (L1 : ℚ)) with hd1
  set d3 : ℚ := 1 / (3 * (L3 : ℚ)) with hd3
  have hd1n : (0 : ℚ) ≤ d1 := inv3_nonneg L1
  have hd3n : (0 : ℚ) ≤ d3 := inv3_nonneg L3
  have hA : A.1.prog = st0.prog + (L1 : ℚ) * d1 ∧
      A.2.1.map (·.progress) = progressSeq st0.prog d1 L1 :=
    phaseLoop_progress _ d1 (fun st item => addTagStep_progress _ L1 st item)
      results.addTag st0
  have hp1u : A.1.prog ≤ 1 / 3 := by
    rw [hA.1, h0, zero_add]; exact natmul_inv3_le L1
  have hp1l : 0 ≤ A.1.prog := by
    rw [hA.1, h0, zero_add]
    exact mul_nonneg (by exact_mod_cast Nat.zero_le L1) hd1n
  have hs1 : (A.2.1.map (·.progress)).Sorted (· ≤ ·) := by
    rw [hA.2]; exact progressSeq_sorted hd1n L1 st0.prog
  have hs1b : ∀ x ∈ A.2.1.map (·.progress), 0 ≤ x ∧ x ≤ A.1.prog := by
    intro x hx
    rw [hA.2] at hx
    obtain ⟨hl, hu⟩ := progressSeq_mem hd1n L1 st0.prog x hx
    rw [h0] at hl hu
    exact ⟨hl, by rw [hA.1, h0]; linarith⟩
  -- Phase 6
  have hD : (A.1.prog ≤ D.1.prog ∧ D.1.prog ≤ A.1.prog + 1 / 3) ∧
      (D.2.1.map (·.progress)).Sorted (· ≤ ·) ∧
      ∀ x ∈ D.2.1.map (·.progress), A.1.prog ≤ x ∧ x ≤ D.1.prog := by
    rw [hDdef]
    unfold tailD
    by_cases hnc : A.1.needToCreate
    · rw [if_pos hnc]
      refine ⟨⟨le_refl _, by linarith⟩, by simp, by simp⟩
    · rw [if_neg hnc]
      set M := (results.removeTag ++ results.del).length with hM
      set d2 : ℚ := 1 / (3 * (M : ℚ)) with hd2
      have hd2n : (0 : ℚ) ≤ d2 := inv3_nonneg M
      have hP : (phaseLoop (toDelStep M) A.1 (results.removeTag ++ results.del)).1.prog =
          A.1.prog + (M : ℚ) * d2 ∧
          (phaseLoop (toDelStep M) A.1 (results.removeTag ++ results.del)).2.1.map (·.progress) =
            progressSeq A.1.prog d2 M :=
        phaseLoop_progress _ d2 (fun st item => toDelStep_progress M st item)
          (results.removeTag ++ results.del) A.1
      have hMd : (M : ℚ) * d2 ≤ 1 / 3 := natmul_inv3_le M
      have hMd0 : 0 ≤ (M : ℚ) * d2 :=
        mul_nonneg (by exact_mod_cast Nat.zero_le M) hd2n
      refine ⟨⟨by rw [hP.1]; linarith, by rw [hP.1]; linarith⟩,
        by rw [hP.2]; exact progressSeq_sorted hd2n M A.1.prog, ?_⟩
      intro x hx
      rw [hP.2] at hx
      obtain ⟨hl, hu⟩ := progressSeq_mem hd2n M A.1.prog x hx
      exact ⟨hl, by rw [hP.1]; linarith⟩
  -- Phase 7
  have hE : E.1.prog = D.1.prog + (L3 : ℚ) * d3 ∧
      E.2.1.map (·.progress) = progressSeq D.1.prog d3 L3 :=
    phaseLoop_progress _ d3 (fun st item => delStep_progress _ L3 st item)
      results.del D.1
  have hL3d : (L3 : ℚ) * d3 ≤ 1 / 3 := natmul_inv3_le L3
  have hp2u : D.1.prog ≤ 2 / 3 := by linarith [hD.1.1, hD.1.2]
  have hs3 : (E.2.1.map (·.progress)).Sorted (· ≤ ·) := by
    rw [hE.2]; exact progressSeq_sorted hd3n L3 D.1.prog
  have hs3b : ∀ x ∈ E.2.1.map (·.progress), D.1.prog ≤ x ∧ x ≤ 1 := by
    intro x hx
    rw [hE.2] at hx
    obtain ⟨hl, hu⟩ := progressSeq_mem hd3n L3 D.1.prog x hx
    exact ⟨hl, by linarith⟩
  -- Assemble: the event list is ((s1 ++ s2) ++ s3) ++ [1]
  rw [hev]
  simp only [List.map_append, List.map_cons, List.map_nil]
  have h12 : ((A.2.1.map (·.progress)) ++ (D.2.1.map (·.progress))).Sorted (· ≤ ·) :=
    sorted_append_le A.1.prog hs1 hD.2.1 (fun x hx => (hs1b x hx).2)
      (fun y hy => (hD.2.2 y hy).1)
  have hb12 : ∀ x ∈ (A.2.1.map (·.progress)) ++ (D.2.1.map (·.progress)), x ≤ D.1.prog := by
    intro x hx
    rw [List.mem_append] at hx
    rcases hx with hx | hx
    · linarith [(hs1b x hx).2, hD.1.1]
    · exact (hD.2.2 x hx).2
  have h123 : (((A.2.1.map (·.progress)) ++ (D.2.1.map (·.progress))) ++
      (E.2.1.map (·.progress))).Sorted (· ≤ ·) :=
    sorted_append_le D.1.prog h12 hs3 hb12 (fun y hy => (hs3b y hy).1)
  have hb123 : ∀ x ∈ ((A.2.1.map (·.progress)) ++ (D.2.1.map (·.progress))) ++
      (E.2.1.map (·.progress)), x ≤ 1 := by
    intro x hx
    rw [List.mem_append] at hx
    rcases hx with hx | hx
    · linarith [hb12 x hx]
    · exact (hs3b x hx).2
  constructor
  · refine sorted_append_le 1 h123 (by simp) hb123 ?_
    intro y hy
    rw [List.mem_singleton] at hy
    subst hy
    exact le_refl 1
  · intro p hp
    rw [List.mem_append] at hp
    rcases hp with hp | hp
    · exact hb123 p hp
    · rw [List.mem_singleton] at hp
      subst hp
      exact le_refl 1

/-- Claim C1 counterexample: a call computing one two-chunk file with one
`del` item emits the progress values `[0, 9/20, 47/60, 67/60, 1]`: the
fourth exceeds 1 and the terminal event decreases, so the emitted progress
of `update` is neither monotone nor bounded by 1 in general. -/
theorem C1_update_progress_counterexample :
    (update uenvC1 resC1).events.map (·.progress) = [0, 9/20, 47/60, 67/60, 1] ∧
    ¬ (((update uenvC1 resC1).events.map (·.progress)).Sorted (· ≤ ·) ∧
       ∀ p ∈ (update uenvC1 resC1).events.map (·.progress), p ≤ 1) := by
  have h : (update uenvC1 resC1).events.map (·.progress) = [0, 9/20, 47/60, 67/60, 1] := by
    simp [update, uenvC1, resC1, twoChunkEnv, remotePhase, computeChunks, computeChunksAux,
      fileStep, collectChunks, computePhase, addComputedLanceDbRows, tailA, tailD, tailE,
      phaseLoop, addTagStep, toDelStep, delStep, initState, artifactId, List.enum,
      List.range_succ]
    norm_num
  refine ⟨h, ?_⟩
  rw [h]
  rintro ⟨-, hb⟩
  have h67 := hb (67/60) (by norm_num)
  norm_num at h67

/-- Witness for the amended claim C1 at a concrete call with non-empty
add-tag, remove-tag and delete lists. -/
theorem C1_update_progress_monotone_bounded_witness :
    ((update uenvC1 resTailOnly).events.map (·.progress)).Sorted (· ≤ ·) :=
  (C1_update_progress_monotone_bounded uenvC1 resTailOnly rfl rfl).1

/-! ## Retrieval lemmas -/

theorem retrieve_eq_of_embed_ok (env : RetrieveEnv) (query : String) (n : Nat)
    (tags : List BranchAndDir) (filterDirectory : Option String)
    (es : List (Option Vec)) (hemb : env.embed [query] = .ok es) :
    retrieve env query n tags filterDirectory =
      .ok ((env.cache.filter (fun d =>
        (topHits env n tags filterDirectory ((es.getD 0 none).getD [])).any
          (fun h => h.uuid == d.uuid))).map recordToChunk) := by
  unfold retrieve
  rw [hemb]

theorem topHits_of_no_tables (env : RetrieveEnv) (n : Nat)
    (tags : List BranchAndDir) (filterDirectory : Option String) (v : Vec)
    (h : tags = [] ∨ ∀ t ∈ tags,
      tableNameForTag ⟨t.branch, t.directory, artifactId env.providerId⟩ ∉ env.tables) :
    topHits env n tags filterDirectory v = [] := by
  have hAll : allHits env n tags filterDirectory v = [] := by
    unfold allHits
    rcases h with h | h
    · subst h; rfl
    · rw [List.flatten_eq_nil_iff]
      intro l hl
      rw [List.mem_map] at hl
      obtain ⟨t, ht, rfl⟩ := hl
      unfold retrieveForTag
      rw [if_pos (h t ht)]
  unfold topHits
  rw [hAll]
  simp [List.insertionSort]

/-- Claim C3: a `retrieve` call with an empty `tags` list, and likewise one
in which no vector table exists under any of the sanitized tag names,
returns the empty list and does not fail (given that the query embedding
that `retrieve` performs first returns). -/
theorem C3_retrieve_empty (env : RetrieveEnv) (query : String) (n : Nat)
    (tags : List BranchAndDir) (filterDirectory : Option String)
    (es : List (Option Vec)) (hemb : env.embed [query] = .ok es)
    (h : tags = [] ∨ ∀ t ∈ tags,
      tableNameForTag ⟨t.branch, t.directory, artifactId env.providerId⟩ ∉ env.tables) :
    retrieve env query n tags filterDirectory = .ok [] := by
  rw [retrieve_eq_of_embed_ok env query n tags filterDirectory es hemb,
    topHits_of_no_tables env n tags filterDirectory _ h]
  simp

/-- Witness for claim C3 at a concrete call with an empty tags list. -/
theorem C3_retrieve_empty_witness :
    retrieve renvCacheOrder "q" 3 [] none = .ok [] :=
  C3_retrieve_empty renvCacheOrder "q" 3 [] none [some [1]] rfl (Or.inl rfl)

/-- Claim C8: `retrieve` never returns more than `n` chunks (the sqlite
cache has `uuid` as its primary key, so its records have pairwise distinct
uuids). -/
theorem C8_retrieve_length_le (env : RetrieveEnv) (query : String) (n : Nat)
    (tags : List BranchAndDir) (filterDirectory : Option String)
    (hnd : (env.cache.map (·.uuid)).Nodup) :
    exceptLength (retrieve env query n tags filterDirectory) ≤ n := by
  cases hemb : env.embed [query] with
  | error e =>
    unfold retrieve
    rw [hemb]
    exact Nat.zero_le n
  | ok es =>
    rw [retrieve_eq_of_embed_ok env query n tags filterDirectory es hemb]
    set th := topHits env n tags filterDirectory ((es.getD 0 none).getD []) with hth
    set F := env.cache.filter (fun d => th.any (fun h => h.uuid == d.uuid)) with hF
    simp only [exceptLength]
    rw [List.length_map]
    have hsub : F.map (·.uuid) ⊆ th.map (·.uuid) := by
      intro x hx
      rw [List.mem_map] at hx
      obtain ⟨d, hd, rfl⟩ := hx
      rw [hF, List.mem_filter] at hd
      obtain ⟨-, hany⟩ := hd
      rw [List.any_eq_true] at hany
      obtain ⟨h, hh, hbe⟩ := hany
      rw [beq_iff_eq] at hbe
      rw [List.mem_map]
      exact ⟨h, hh, hbe⟩
    have hndF : (F.map (·.uuid)).Nodup :=
      ((List.filter_sublist env.cache).map (·.uuid)).nodup hnd
    have hlen : (F.map (·.uuid)).length ≤ (th.map (·.uuid)).length :=
      (hndF.subperm hsub).length_le
    rw [List.length_map, List.length_map] at hlen
    have hthn : th.length ≤ n := by
      rw [hth]
      unfold topHits
      exact (List.length_take _ _).trans_le (Nat.min_le_left _ _)
    exact le_trans hlen hthn

/-- Witness for claim C8 at a concrete call with `n = 1` and two hits. -/
theorem C8_retrieve_length_le_witness :
    exceptLength (retrieve renvCacheOrder "q" 1 [tagMainDir] none) ≤ 1 :=
  C8_retrieve_length_le renvCacheOrder "q" 1 [tagMainDir] none (by decide)

/-- Claim C2 (amended): the merged hit list is sorted by ascending
`_distance` and truncated to `n` before the join, but the chunks returned
by `retrieve` are the joined cache records in sqlite table order, not in
hit order (the counterexample below separates the two). -/
theorem C2_retrieve_order (env : RetrieveEnv) (query : String) (n : Nat)
    (tags : List BranchAndDir) (filterDirectory : Option String)
    (es : List (Option Vec)) (v : Vec)
    (hemb : env.embed [query] = .ok (some v :: es)) :
    (topHits env n tags filterDirectory v).Sorted hitLE ∧
    retrieve env query n tags filterDirectory =
      .ok ((env.cache.filter (fun d =>
        (topHits env n tags filterDirectory v).any (fun h => h.uuid == d.uuid))).map
        recordToChunk) := by
  constructor
  · unfold topHits
    exact List.Pairwise.sublist (List.take_sublist n _)
      (List.sorted_insertionSort hitLE (allHits env n tags filterDirectory v))
  · exact retrieve_eq_of_embed_ok env query n tags filterDirectory (some v :: es) hemb

/-- Claim C2 counterexample: in `renvCacheOrder` the closest hit is
`uuid 2` but its cache record was inserted after `uuid 1`; `retrieve`
returns the chunk of `uuid 1` (hit distance 1) before the chunk of
`uuid 2` (hit distance 0), so the returned chunks are not ordered by
ascending `_distance` of their corresponding hits. -/
theorem C2_retrieve_order_counterexample :
    retrieve renvCacheOrder "q" 2 [tagMainDir] none =
      .ok [recordToChunk recA, recordToChunk recB] ∧
    topHits renvCacheOrder 2 [tagMainDir] none [1] =
      [⟨2, "b.ts", "kb", 0⟩, ⟨1, "a.ts", "ka", 1⟩] ∧
    ¬ orderedByHitDistance renvCacheOrder.cache
        [⟨2, "b.ts", "kb", 0⟩, ⟨1, "a.ts", "ka", 1⟩]
        [recordToChunk recA, recordToChunk recB] := by
  refine ⟨?_, ?_, ?_⟩
  · simp [retrieve, renvCacheOrder, topHits, allHits, retrieveForTag, recordToChunk, recA, recB,
      List.insertionSort, List.orderedInsert, hitLE, tagMainDir, artifactId]
  · simp [renvCacheOrder, topHits, allHits, retrieveForTag, List.insertionSort,
      List.orderedInsert, hitLE, tagMainDir, artifactId]
  · simp [orderedByHitDistance, chunkHitDists, renvCacheOrder, recordToChunk, recA, recB]

/-- Witness for the amended claim C2 at the concrete environment. -/
theorem C2_retrieve_order_witness :
    (topHits renvCacheOrder 2 [tagMainDir] none [1]).Sorted hitLE ∧
    retrieve renvCacheOrder "q" 2 [tagMainDir] none =
      .ok ((renvCacheOrder.cache.filter (fun d =>
        (topHits renvCacheOrder 2 [tagMainDir] none [1]).any
          (fun h => h.uuid == d.uuid))).map recordToChunk) :=
  C2_retrieve_order renvCacheOrder "q" 2 [tagMainDir] none [] [1] rfl

/-! ## Compute-pipeline lemmas -/

theorem collectChunks_of_nonempty :
    ∀ cs : List Chunk, (∀ c ∈ cs, c.content ≠ "") → collectChunks cs = (cs, false) := by
  intro cs
  induction cs with
  | nil => intro _; rfl
  | cons c rest ih =>
    intro h
    unfold collectChunks
    rw [if_neg (h c (List.mem_cons_self c rest))]
    rw [ih (fun x hx => h x (List.mem_cons_of_mem c hx))]

theorem collectChunks_fst_of_not_snd :
    ∀ cs : List Chunk, (collectChunks cs).2 = false → (collectChunks cs).1 = cs := by
  intro cs
  induction cs with
  | nil => intro _; rfl
  | cons c rest ih =>
    intro h
    unfold collectChunks at h ⊢
    by_cases hc : c.content = ""
    · rw [if_pos hc] at h
      exact absurd h (by simp)
    · rw [if_neg hc] at h ⊢
      simp only at h ⊢
      rw [ih h]

theorem getD_map_some (vs : List Vec) (j : Nat) :
    ((vs.map some).getD j none).getD [] = vs.getD j [] := by
  rw [List.getD_eq_getElem?_getD, List.getD_eq_getElem?_getD, List.getElem?_map]
  cases vs[j]? <;> rfl

theorem map_some_no_none (vs : List Vec) :
    (vs.map some).any (fun e => e.isNone) = false := by
  simp [List.any_map, Function.comp]

/-- Full evaluation of one `computeChunks` iteration on a well-behaved
file: non-empty chunks, at most 20 of them, and a provider batch of plain
vectors. -/
theorem fileStep_ok (env : Env) (N i : Nat) (item : PathAndCacheKey) (u : Nat)
    (out : List Chunk) (vs : List Vec)
    (hout : env.chunkDocument item.path (env.readFile item.path) item.cacheKey = out)
    (hne : ∀ c ∈ out, c.content ≠ "")
    (hlen : out.length ≤ 20)
    (hemb : env.embed (out.map (·.content)) = .ok (vs.map some)) :
    fileStep env N i item u =
      .ok (fileRowEvents N i item u out vs ++ [ComputeEvent.eof item], u + out.length) := by
  simp only [fileStep]
  rw [hout, collectChunks_of_nonempty out hne]
  simp only
  rw [if_neg (by simp [Nat.not_lt.mpr hlen])]
  rw [hemb]
  simp only [map_some_no_none, Bool.false_eq_true, if_neg]
  unfold fileRowEvents
  simp only [getD_map_some]
  rw [if_neg (Nat.not_lt.mpr hlen)]
  simp

/-- Claim C4: a file whose chunker output is exactly 20 non-empty chunks
is indexed: its 20 row tuples are emitted followed by its end-of-file
marker.  A file whose chunker output exceeds 20 chunks is abandoned: no
row tuples and no end-of-file marker are emitted for it, so `update`
never marks it complete. -/
theorem C4_twenty_chunk_boundary (env : Env) (N i : Nat) (item : PathAndCacheKey)
    (u : Nat) (out : List Chunk) (vs : List Vec)
    (hout : env.chunkDocument item.path (env.readFile item.path) item.cacheKey = out) :
    (out.length = 20 → (∀ c ∈ out, c.content ≠ "") →
      env.embed (out.map (·.content)) = .ok (vs.map some) →
      fileStep env N i item u =
        .ok (fileRowEvents N i item u out vs ++ [ComputeEvent.eof item], u + 20) ∧
      (fileRowEvents N i item u out vs).length = 20 ∧
      ∀ e ∈ fileRowEvents N i item u out vs, e.isRow = true) ∧
    (20 < out.length → fileStep env N i item u = .ok ([], u)) := by
  constructor
  · intro h20 hne hemb
    refine ⟨?_, ?_, ?_⟩
    · rw [fileStep_ok env N i item u out vs hout hne (le_of_eq h20) hemb, h20]
    · simp [fileRowEvents, h20]
    · intro e he
      unfold fileRowEvents at he
      rw [List.mem_map] at he
      obtain ⟨j, -, rfl⟩ := he
      rfl
  · intro hgt
    simp only [fileStep]
    rw [hout]
    cases h2 : (collectChunks out).2
    · rw [collectChunks_fst_of_not_snd out h2]
      simp [hgt]
    · simp

/-- Witness for claim C4: in `envC4` the 20-chunk file is indexed in full
and the 21-chunk file is abandoned. -/
theorem C4_twenty_chunk_boundary_witness :
    (fileStep envC4 2 0 ⟨"ok.ts", "k0"⟩ 0 =
      .ok (fileRowEvents 2 0 ⟨"ok.ts", "k0"⟩ 0 (nChunks "ok.ts" 20)
          (List.replicate 20 [1]) ++ [ComputeEvent.eof ⟨"ok.ts", "k0"⟩], 0 + 20)) ∧
    fileStep envC4 2 1 ⟨"big.ts", "k1"⟩ 5 = .ok ([], 5) :=
  ⟨((C4_twenty_chunk_boundary envC4 2 0 ⟨"ok.ts", "k0"⟩ 0 (nChunks "ok.ts" 20)
      (List.replicate 20 [1]) rfl).1 (by decide) (by decide) rfl).1,
   (C4_twenty_chunk_boundary envC4 2 1 ⟨"big.ts", "k1"⟩ 5 (nChunks "big.ts" 21)
      [] rfl).2 (by decide)⟩

/-- Claim C5: when the provider's batch embed call raises for a file, the
pipeline skips that file (no rows, no end-of-file marker, so it is never
marked complete) and continues with the remaining files; when instead the
batch returns with an `undefined` element, the generator throws and the
whole `update` call fails. -/
theorem C5_embed_failure (env : Env) (N i : Nat) (item : PathAndCacheKey) (u : Nat)
    (rest : List (Nat × PathAndCacheKey)) (out : List Chunk)
    (uenv : UpdateEnv) (results : RefreshIndexResults)
    (hout : env.chunkDocument item.path (env.readFile item.path) item.cacheKey = out)
    (hne : ∀ c ∈ out, c.content ≠ "")
    (hlen : out.length ≤ 20) :
    (env.embed (out.map (·.content)) = .error () →
      fileStep env N i item u = .ok ([], u) ∧
      computeChunksAux env N ((i, item) :: rest) u = computeChunksAux env N rest u) ∧
    (∀ es, env.embed (out.map (·.content)) = .ok es →
      es.any (fun e => e.isNone) = true →
      fileStep env N i item u = .error () ∧
      computeChunksAux env N ((i, item) :: rest) u = ([], u, true) ∧
      (uenv.env = env → uenv.remote = none → results.compute = [item] →
        (update uenv results).threw = true)) := by
  constructor
  · intro herr
    have hfs : fileStep env N i item u = .ok ([], u) := by
      simp only [fileStep]
      rw [hout, collectChunks_of_nonempty out hne]
      simp only
      rw [if_neg (by simp)]
      rw [if_neg (Nat.not_lt.mpr hlen), herr]
    refine ⟨hfs, ?_⟩
    simp only [computeChunksAux]
    rw [hfs]
    rfl
  · intro es hemb hany
    have hfat : ∀ N' i' u' : Nat, fileStep env N' i' item u' = .error () := by
      intro N' i' u'
      simp only [fileStep]
      rw [hout, collectChunks_of_nonempty out hne]
      simp only
      rw [if_neg (by simp)]
      rw [if_neg (Nat.not_lt.mpr hlen), hemb]
      simp only [hany, if_pos]
    refine ⟨hfat N i u, ?_, ?_⟩
    · simp only [computeChunksAux]
      rw [hfat N i u]
    · intro henv hrm hcomp
      unfold update
      rw [hrm, hcomp, henv]
      simp only [remotePhase, computeChunks, computeChunksAux, List.enum, List.enumFrom,
        List.length_cons, List.length_nil, initState]
      rw [hfat 1 0 0]
      rfl

def itemErr : PathAndCacheKey := ⟨"err.ts", "k"⟩

def itemFat : PathAndCacheKey := ⟨"fat.ts", "k2"⟩

/-- Witness for claim C5: in `envC5` the one-chunk file's embed raises and
the file is skipped while the next file is still processed; the two-chunk
file's embed returns an `undefined` element and the `update` call throws. -/
theorem C5_embed_failure_witness :
    (fileStep envC5 2 0 itemErr 0 = .ok ([], 0) ∧
     computeChunksAux envC5 2 [(0, itemErr), (1, itemFat)] 0 =
       computeChunksAux envC5 2 [(1, itemFat)] 0) ∧
    (fileStep envC5 2 1 itemFat 0 = .error () ∧
     (update uenvC5 resC5).threw = true) := by
  refine ⟨(C5_embed_failure envC5 2 0 itemErr 0 [(1, itemFat)] (nChunks "err.ts" 1)
      uenvC5 resC5 rfl (by decide) (by decide)).1 rfl, ?_, ?_⟩
  · exact ((C5_embed_failure envC5 2 1 itemFat 0 [] (nChunks "fat.ts" 2)
      uenvC5 resC5 rfl (by decide) (by decide)).2 [some [1], none] rfl rfl).1
  · exact (((C5_embed_failure envC5 2 1 itemFat 0 [] (nChunks "fat.ts" 2)
      uenvC5 resC5 rfl (by decide) (by decide)).2 [some [1], none] rfl rfl).2).2 rfl rfl rfl

/-! ## Compute-phase effect ordering -/

theorem addComputedLanceDbRows_trace (tableExists0 : Bool) (st : UState)
    (item : PathAndCacheKey) (rows : List LanceDbRow) :
    ∃ tbl, (addComputedLanceDbRows tableExists0 st item rows).2 =
      tbl ++ [UEffect.mark [item] IndexResultType.Compute] ∧
      ∀ e ∈ tbl, e.isTableWrite = true := by
  unfold addComputedLanceDbRows
  by_cases h1 : st.opened = true
  · rw [if_pos h1]
    refine ⟨_, rfl, ?_⟩
    intro e he
    split at he
    · rw [List.mem_singleton] at he
      subst he
      rfl
    · simp at he
  · rw [if_neg h1]
    by_cases h2 : tableExists0 = true
    · rw [if_pos h2]
      refine ⟨_, rfl, ?_⟩
      intro e he
      split at he
      · rw [List.mem_singleton] at he
        subst he
        rfl
      · simp at he
    · rw [if_neg h2]
      by_cases h3 : 0 < rows.length
      · rw [if_pos h3]
        refine ⟨[UEffect.tableCreate rows], rfl, ?_⟩
        intro e he
        rw [List.mem_singleton] at he
        subst he
        rfl
      · rw [if_neg h3]
        exact ⟨[], rfl, by simp⟩

theorem computePhase_segment_shape (artifact : String) (tableExists0 : Bool)
    (item : PathAndCacheKey) :
    ∀ (revts : List ComputeEvent), (∀ e ∈ revts, e.isRow = true) →
    ∀ (st : UState) (buf : List LanceDbRow), ∃ ins tbl,
      (computePhase artifact tableExists0 st buf (revts ++ [ComputeEvent.eof item])).2.2 =
        ins ++ (tbl ++ [UEffect.mark [item] IndexResultType.Compute]) ∧
      (∀ e ∈ ins, e.isCacheInsert = true) ∧
      (∀ e ∈ tbl, e.isTableWrite = true) := by
  intro revts
  induction revts with
  | nil =>
    intro _ st buf
    obtain ⟨tbl, htbl, hw⟩ := addComputedLanceDbRows_trace tableExists0 st item buf
    refine ⟨[], tbl, ?_, by simp, hw⟩
    simp only [List.nil_append, computePhase, List.append_nil]
    rw [htbl]
  | cons e rest ih =>
    intro hrows st buf
    have he := hrows e (List.mem_cons_self e rest)
    cases e with
    | eof it => simp [ComputeEvent.isRow] at he
    | row p r sl el cts d =>
      obtain ⟨ins, tbl, heq, hins, htbl⟩ :=
        ih (fun x hx => hrows x (List.mem_cons_of_mem _ hx))
          (UState.mk st.opened st.needToCreate
            (st.cache ++ [CacheRecord.mk r.uuid r.cachekey r.path artifact r.vector sl el cts])
            st.uuid (p * (9 / 10)))
          (buf ++ [r])
      refine ⟨UEffect.cacheInsert ⟨r.uuid, r.cachekey, r.path, artifact, r.vector, sl, el, cts⟩ :: ins,
        tbl, ?_, ?_, htbl⟩
      · simp only [List.cons_append, computePhase, List.append_eq]
        rw [heq]
      · intro x hx
        rw [List.mem_cons] at hx
        rcases hx with hx | hx
        · subst hx
          rfl
        · exact hins x hx

theorem filter_of_shape {ins tbl : List UEffect} {item : PathAndCacheKey}
    (hins : ∀ e ∈ ins, e.isCacheInsert = true)
    (htbl : ∀ e ∈ tbl, e.isTableWrite = true) :
    (ins ++ (tbl ++ [UEffect.mark [item] IndexResultType.Compute])).filter (·.isCacheInsert) = ins ∧
    (ins ++ (tbl ++ [UEffect.mark [item] IndexResultType.Compute])).filter (·.isTableWrite) = tbl := by
  have hwi : ∀ e ∈ tbl, e.isCacheInsert = false := by
    intro e he
    have := htbl e he
    cases e <;> simp_all [UEffect.isTableWrite, UEffect.isCacheInsert]
  have hiw : ∀ e ∈ ins, e.isTableWrite = false := by
    intro e he
    have := hins e he
    cases e <;> simp_all [UEffect.isTableWrite, UEffect.isCacheInsert]
  constructor
  · rw [List.filter_append, List.filter_append]
    rw [List.filter_eq_self.mpr hins]
    rw [List.filter_eq_nil_iff.mpr (by intro e he; simp [hwi e he]),
      show ([UEffect.mark [item] IndexResultType.Compute].filter (·.isCacheInsert)) = [] from rfl]
    simp
  · rw [List.filter_append, List.filter_append]
    rw [List.filter_eq_self.mpr htbl]
    rw [List.filter_eq_nil_iff.mpr (by intro e he; simp [hiw e he]),
      show ([UEffect.mark [item] IndexResultType.Compute].filter (·.isTableWrite)) = [] from rfl]
    simp

/-- Claim C6: in the effect trace of one compute-phase file segment, all
sqlite cache inserts come first, then the vector-table write of the file's
buffered rows, and `markComplete` (result type Compute) comes last: the
segment trace equals its cache inserts, followed by its table writes,
followed by the mark. -/
theorem C6_compute_effect_order (artifact : String) (tableExists0 : Bool)
    (revts : List ComputeEvent) (item : PathAndCacheKey) (st : UState)
    (buf : List LanceDbRow) (hrows : ∀ e ∈ revts, e.isRow = true) :
    (computePhase artifact tableExists0 st buf (revts ++ [ComputeEvent.eof item])).2.2 =
      (computePhase artifact tableExists0 st buf (revts ++ [ComputeEvent.eof item])).2.2.filter
        (·.isCacheInsert) ++
      ((computePhase artifact tableExists0 st buf (revts ++ [ComputeEvent.eof item])).2.2.filter
        (·.isTableWrite) ++
       [UEffect.mark [item] IndexResultType.Compute]) := by
  obtain ⟨ins, tbl, heq, hins, htbl⟩ :=
    computePhase_segment_shape artifact tableExists0 item revts hrows st buf
  obtain ⟨hf1, hf2⟩ := filter_of_shape hins htbl
  rw [heq, hf1, hf2]

/-- Witness for claim C6: a concrete two-row file segment. -/
theorem C6_compute_effect_order_witness :
    (computePhase "vectordb::p1" false ⟨false, true, [], 2, 0⟩ []
        ([ComputeEvent.row 0 ⟨0, "a.ts", "k1", [1]⟩ 0 1 "aa" "d1",
          ComputeEvent.row (9 / 20) ⟨1, "a.ts", "k1", [1]⟩ 2 3 "bb" "d2"] ++
         [ComputeEvent.eof ⟨"a.ts", "k1"⟩])).2.2 =
      (computePhase "vectordb::p1" false ⟨false, true, [], 2, 0⟩ []
          ([ComputeEvent.row 0 ⟨0, "a.ts", "k1", [1]⟩ 0 1 "aa" "d1",
            ComputeEvent.row (9 / 20) ⟨1, "a.ts", "k1", [1]⟩ 2 3 "bb" "d2"] ++
           [ComputeEvent.eof ⟨"a.ts", "k1"⟩])).2.2.filter (·.isCacheInsert) ++
      ((computePhase "vectordb::p1" false ⟨false, true, [], 2, 0⟩ []
          ([ComputeEvent.row 0 ⟨0, "a.ts", "k1", [1]⟩ 0 1 "aa" "d1",
            ComputeEvent.row (9 / 20) ⟨1, "a.ts", "k1", [1]⟩ 2 3 "bb" "d2"] ++
           [ComputeEvent.eof ⟨"a.ts", "k1"⟩])).2.2.filter (·.isTableWrite) ++
       [UEffect.mark [⟨"a.ts", "k1"⟩] IndexResultType.Compute]) :=
  C6_compute_effect_order "vectordb::p1" false
    [ComputeEvent.row 0 ⟨0, "a.ts", "k1", [1]⟩ 0 1 "aa" "d1",
     ComputeEvent.row (9 / 20) ⟨1, "a.ts", "k1", [1]⟩ 2 3 "bb" "d2"]
    ⟨"a.ts", "k1"⟩ ⟨false, true, [], 2, 0⟩ [] (by decide)

/-! ## Remote short-circuit -/

/-- Claim C9: in the remote short-circuit phase of `update`, (a) a failing
remote exchange is swallowed: no effects, and the whole compute set is
left for the local pipeline; (b) on success the compute set is filtered to
the items whose cacheKey has no entry in the response, i.e. an item stays
exactly when no response entry answers it; (c) a response entry whose
cacheKey was not requested is dropped with a warning and produces no
rows or effects. -/
theorem C9_remote_phase (artifact : String) (tableExists0 : Bool)
    (compute : List PathAndCacheKey) (st : UState)
    (get : List String → Except Unit (List (String × List RemoteChunk))) :
    (get (compute.map (·.cacheKey)) = .error () →
      remotePhase artifact tableExists0 (some get) compute st = (st, [], compute)) ∧
    (∀ files, get (compute.map (·.cacheKey)) = .ok files →
      (remotePhase artifact tableExists0 (some get) compute st).2.2 =
        compute.filter (fun item => (files.find? (fun e => e.1 == item.cacheKey)).isNone) ∧
      ∀ item, (item ∈ (remotePhase artifact tableExists0 (some get) compute st).2.2 ↔
        item ∈ compute ∧ ∀ e ∈ files, e.1 ≠ item.cacheKey)) ∧
    (∀ (entry : String × List RemoteChunk) (st' : UState),
      (∀ i ∈ compute, i.cacheKey ≠ entry.1) →
      remoteEntryStep artifact tableExists0 compute st' entry = (st', [])) := by
  refine ⟨?_, ?_, ?_⟩
  · intro herr
    simp only [remotePhase]
    rw [herr]
  · intro files hok
    have heq : (remotePhase artifact tableExists0 (some get) compute st).2.2 =
        compute.filter (fun item => (files.find? (fun e => e.1 == item.cacheKey)).isNone) := by
      simp only [remotePhase]
      rw [hok]
    refine ⟨heq, ?_⟩
    intro item
    rw [heq, List.mem_filter]
    constructor
    · rintro ⟨hm, hf⟩
      refine ⟨hm, ?_⟩
      rw [Option.isNone_iff_eq_none, List.find?_eq_none] at hf
      intro e he hne
      exact absurd (by rw [hne]; exact beq_self_eq_true _) (hf e he)
    · rintro ⟨hm, hf⟩
      refine ⟨hm, ?_⟩
      rw [Option.isNone_iff_eq_none, List.find?_eq_none]
      intro e he hbeq
      exact hf e he (eq_of_beq hbeq)
  · intro entry st' hunk
    unfold remoteEntryStep
    rw [List.find?_eq_none.mpr (fun i hi hbeq => hunk i hi (eq_of_beq hbeq))]

/-- Witness for claim C9 at a concrete remote exchange: the erroring
client leaves the compute set intact; the successful response removes the
answered `k1` item and keeps `k2`; the unrequested `kx` entry is a no-op. -/
theorem C9_remote_phase_witness :
    remotePhase (artifactId "p1") false (some remoteErrClient) computeC9 stC9 =
      (stC9, [], computeC9) ∧
    (remotePhase (artifactId "p1") false (some remoteOkClient) computeC9 stC9).2.2 =
      [⟨"b.ts", "k2"⟩] ∧
    remoteEntryStep (artifactId "p1") false computeC9 stC9 ("kx", [⟨[1], 2, 3, "X"⟩]) =
      (stC9, []) := by
  refine ⟨(C9_remote_phase (artifactId "p1") false computeC9 stC9 remoteErrClient).1 rfl,
    ?_, (C9_remote_phase (artifactId "p1") false computeC9 stC9 remoteOkClient).2.2
      ("kx", [⟨[1], 2, 3, "X"⟩]) stC9 (by decide)⟩
  rw [((C9_remote_phase (artifactId "p1") false computeC9 stC9 remoteOkClient).2.1
    [("k1", [⟨[1], 0, 1, "A"⟩]), ("kx", [⟨[1], 2, 3, "X"⟩])] rfl).1]
  decide

/-! ## Tail phases with no table -/

theorem addTagPhase_no_rows (artifact : String) (L : Nat) :
    ∀ (items : List PathAndCacheKey) (st : UState),
      (∀ item ∈ items, st.cache.filter (fun cr =>
        cr.cacheKey == item.cacheKey && cr.path == item.path &&
        cr.artifact_id == artifact) = []) →
      (phaseLoop (addTagStep artifact L) st items).1.opened = st.opened ∧
      (phaseLoop (addTagStep artifact L) st items).1.needToCreate = st.needToCreate ∧
      (phaseLoop (addTagStep artifact L) st items).1.cache = st.cache ∧
      (phaseLoop (addTagStep artifact L) st items).2.2 =
        items.map (fun item => UEffect.mark [item] IndexResultType.AddTag) := by
  intro items
  induction items with
  | nil => intro st _; exact ⟨rfl, rfl, rfl, rfl⟩
  | cons item rest ih =>
    intro st hc
    have hstep : addTagStep artifact L st item =
        ({ st with prog := st.prog + 1 / (3 * (L : ℚ)) },
         [⟨st.prog + 1 / (3 * (L : ℚ)), "Indexing " ++ getBasename item.path, "indexing"⟩],
         [UEffect.mark [item] IndexResultType.AddTag]) := by
      unfold addTagStep
      rw [hc item (List.mem_cons_self item rest)]
      rfl
    obtain ⟨ih1, ih2, ih3, ih4⟩ := ih { st with prog := st.prog + 1 / (3 * (L : ℚ)) }
      (fun x hx => hc x (List.mem_cons_of_mem item hx))
    simp only [phaseLoop, hstep]
    exact ⟨ih1, ih2, ih3, by rw [ih4]; rfl⟩

theorem delPhase_shape (artifact : String) (K : Nat) :
    ∀ (items : List PathAndCacheKey) (st : UState),
      (phaseLoop (delStep artifact K) st items).2.2 =
        items.map (fun item =>
          UEffect.cacheDelete item.cacheKey item.path artifact) ∧
      (phaseLoop (delStep artifact K) st items).1.cache =
        items.foldl (fun c item => c.filter (fun cr =>
          !(cr.cacheKey == item.cacheKey && cr.path == item.path &&
            cr.artifact_id == artifact))) st.cache := by
  intro items
  induction items with
  | nil => intro st; exact ⟨rfl, rfl⟩
  | cons item rest ih =>
    intro st
    obtain ⟨ih1, ih2⟩ := ih ((delStep artifact K st item).1)
    refine ⟨?_, ?_⟩
    · simp only [phaseLoop, List.map_cons]
      rw [ih1]
      rfl
    · simp only [phaseLoop, List.foldl_cons]
      exact ih2

theorem update_compute_nil_full (uenv : UpdateEnv) (results : RefreshIndexResults)
    (hr : uenv.remote = none) (hc : results.compute = []) :
    update uenv results = ⟨
      (tailA uenv results (initState uenv)).2.1 ++
        (tailD results (tailA uenv results (initState uenv)).1).2.1 ++
        (tailE uenv results (tailD results (tailA uenv results (initState uenv)).1).1).2.1 ++
        [⟨1, "Completed Calculating Embeddings", "done"⟩],
      (tailA uenv results (initState uenv)).2.2 ++
        (tailD results (tailA uenv results (initState uenv)).1).2.2 ++
        [UEffect.mark results.removeTag IndexResultType.RemoveTag] ++
        (tailE uenv results (tailD results (tailA uenv results (initState uenv)).1).1).2.2 ++
        [UEffect.mark results.del IndexResultType.Delete],
      (tailE uenv results (tailD results (tailA uenv results (initState uenv)).1).1).1.cache,
      false⟩ := by
  unfold update
  rw [hr, hc]
  rfl

/-- Claim C10: an `update` call in which no vector table exists for the
sanitized tag and none is created (empty compute, no remote client, and
add-tag finding no cache rows) issues no table predicate-deletions, yet
still marks the removeTag list complete (RemoveTag) and the del list
complete (Delete) exactly once each, still deletes the cache records of
the del items, and still ends with the terminal done event of progress 1.  -/
theorem C10_no_table_phases (uenv : UpdateEnv) (results : RefreshIndexResults)
    (ht : uenv.tableExists = false) (hr : uenv.remote = none)
    (hc : results.compute = [])
    (ha : ∀ item ∈ results.addTag, uenv.cache0.filter (fun cr =>
      cr.cacheKey == item.cacheKey && cr.path == item.path &&
      cr.artifact_id == artifactId uenv.providerId) = []) :
    (update uenv results).trace =
      results.addTag.map (fun item => UEffect.mark [item] IndexResultType.AddTag) ++
      [UEffect.mark results.removeTag IndexResultType.RemoveTag] ++
      results.del.map (fun item =>
        UEffect.cacheDelete item.cacheKey item.path (artifactId uenv.providerId)) ++
      [UEffect.mark results.del IndexResultType.Delete] ∧
    (update uenv results).trace.countP (·.isTableDelete) = 0 ∧
    (update uenv results).trace.count
      (UEffect.mark results.removeTag IndexResultType.RemoveTag) = 1 ∧
    (update uenv results).trace.count
      (UEffect.mark results.del IndexResultType.Delete) = 1 ∧
    (update uenv results).cache = results.del.foldl (fun c item => c.filter (fun cr =>
      !(cr.cacheKey == item.cacheKey && cr.path == item.path &&
        cr.artifact_id == artifactId uenv.providerId))) uenv.cache0 ∧
    (update uenv results).events.getLast? =
      some ⟨1, "Completed Calculating Embeddings", "done"⟩ := by
  have hfull := update_compute_nil_full uenv results hr hc
  have hA := addTagPhase_no_rows (artifactId uenv.providerId) results.addTag.length
    results.addTag (initState uenv) (by
      intro item hitem
      exact ha item hitem)
  have hNC : (tailA uenv results (initState uenv)).1.needToCreate = true := by
    show (phaseLoop (addTagStep (artifactId uenv.providerId) results.addTag.length)
      (initState uenv) results.addTag).1.needToCreate = true
    rw [hA.2.1]
    simp [initState, ht]
  have hD : tailD results (tailA uenv results (initState uenv)).1 =
      ((tailA uenv results (initState uenv)).1, [], []) := by
    unfold tailD
    rw [if_pos hNC]
  have hE := delPhase_shape (artifactId uenv.providerId) results.del.length
    results.del (tailA uenv results (initState uenv)).1
  have hAcache : (tailA uenv results (initState uenv)).1.cache = uenv.cache0 := hA.2.2.1
  have htr : (update uenv results).trace =
      results.addTag.map (fun item => UEffect.mark [item] IndexResultType.AddTag) ++
      [UEffect.mark results.removeTag IndexResultType.RemoveTag] ++
      results.del.map (fun item =>
        UEffect.cacheDelete item.cacheKey item.path (artifactId uenv.providerId)) ++
      [UEffect.mark results.del IndexResultType.Delete] := by
    rw [hfull]
    show (tailA uenv results (initState uenv)).2.2 ++
        (tailD results (tailA uenv results (initState uenv)).1).2.2 ++
        [UEffect.mark results.removeTag IndexResultType.RemoveTag] ++
        (tailE uenv results (tailD results (tailA uenv results (initState uenv)).1).1).2.2 ++
        [UEffect.mark results.del IndexResultType.Delete] = _
    rw [hD]
    have h1 : (tailA uenv results (initState uenv)).2.2 =
        results.addTag.map (fun item => UEffect.mark [item] IndexResultType.AddTag) := hA.2.2.2
    have h2 : (tailE uenv results (tailA uenv results (initState uenv)).1).2.2 =
        results.del.map (fun item =>
          UEffect.cacheDelete item.cacheKey item.path (artifactId uenv.providerId)) := hE.1
    rw [h1, h2]
    simp [List.append_assoc]
  refine ⟨htr, ?_, ?_, ?_, ?_, ?_⟩
  · rw [htr]
    rw [List.countP_eq_zero]
    intro e he
    simp only [List.mem_append, List.mem_map, List.mem_singleton] at he
    rcases he with ((⟨x, -, rfl⟩ | rfl) | ⟨x, -, rfl⟩) | rfl <;>
      simp [UEffect.isTableDelete]
  · rw [htr]
    simp only [List.count_append]
    rw [List.count_eq_zero.mpr (by
      intro h
      rw [List.mem_map] at h
      obtain ⟨x, -, hx⟩ := h
      simp at hx)]
    rw [List.count_eq_zero.mpr (show UEffect.mark results.removeTag IndexResultType.RemoveTag ∉
        results.del.map (fun item =>
          UEffect.cacheDelete item.cacheKey item.path (artifactId uenv.providerId)) by
      intro h
      rw [List.mem_map] at h
      obtain ⟨x, -, hx⟩ := h
      simp at hx)]
    rw [List.count_eq_zero.mpr (show UEffect.mark results.removeTag IndexResultType.RemoveTag ∉
        [UEffect.mark results.del IndexResultType.Delete] by
      intro h
      rw [List.mem_singleton] at h
      simp at h)]
    simp
  · rw [htr]
    simp only [List.count_append]
    rw [List.count_eq_zero.mpr (by
      intro h
      rw [List.mem_map] at h
      obtain ⟨x, -, hx⟩ := h
      simp at hx)]
    rw [List.count_eq_zero.mpr (show UEffect.mark results.del IndexResultType.Delete ∉
        [UEffect.mark results.removeTag IndexResultType.RemoveTag] by
      intro h
      rw [List.mem_singleton] at h
      simp at h)]
    rw [List.count_eq_zero.mpr (show UEffect.mark results.del IndexResultType.Delete ∉
        results.del.map (fun item =>
          UEffect.cacheDelete item.cacheKey item.path (artifactId uenv.providerId)) by
      intro h
      rw [List.mem_map] at h
      obtain ⟨x, -, hx⟩ := h
      simp at hx)]
    simp
  · rw [hfull]
    show (tailE uenv results (tailD results (tailA uenv results (initState uenv)).1).1).1.cache = _
    rw [hD]
    have hEc : (tailE uenv results (tailA uenv results (initState uenv)).1).1.cache =
        results.del.foldl (fun c item => c.filter (fun cr =>
          !(cr.cacheKey == item.cacheKey && cr.path == item.path &&
            cr.artifact_id == artifactId uenv.providerId)))
          (tailA uenv results (initState uenv)).1.cache := hE.2
    rw [hEc, hAcache]
  · rw [hfull]
    show ((tailA uenv results (initState uenv)).2.1 ++
        (tailD results (tailA uenv results (initState uenv)).1).2.1 ++
        (tailE uenv results (tailD results (tailA uenv results (initState uenv)).1).1).2.1 ++
        [(⟨1, "Completed Calculating Embeddings", "done"⟩ : ProgressEvent)]).getLast? = _
    rw [List.getLast?_concat]

/-- Witness for claim C10 at a concrete call with a remove-tag item and a
delete item but no table. -/
theorem C10_no_table_phases_witness :
    (update uenvC10 resC10).trace =
      [UEffect.mark [⟨"x.ts", "kx"⟩] IndexResultType.RemoveTag,
       UEffect.cacheDelete "ka" "a.ts" (artifactId "p1"),
       UEffect.mark [⟨"a.ts", "ka"⟩] IndexResultType.Delete] ∧
    (update uenvC10 resC10).cache = [recB] ∧
    (update uenvC10 resC10).events.getLast? =
      some ⟨1, "Completed Calculating Embeddings", "done"⟩ := by
  have h := C10_no_table_phases uenvC10 resC10 rfl rfl rfl (by decide)
  refine ⟨?_, ?_, h.2.2.2.2.2⟩
  · rw [h.1]
    rfl
  · rw [h.2.2.2.2.1]
    decide

/-! ## Compute-then-add-tag reuse -/

theorem addComputedLanceDbRows_state (tableExists0 : Bool) (st : UState)
    (item : PathAndCacheKey) (rows : List LanceDbRow) :
    (addComputedLanceDbRows tableExists0 st item rows).1.cache = st.cache ∧
    (addComputedLanceDbRows tableExists0 st item rows).1.uuid = st.uuid ∧
    (addComputedLanceDbRows tableExists0 st item rows).1.prog = st.prog := by
  unfold addComputedLanceDbRows
  repeat' split
  all_goals exact ⟨rfl, rfl, rfl⟩

theorem computePhase_cache (artifact : String) (tableExists0 : Bool) :
    ∀ (evts : List ComputeEvent) (st : UState) (buf : List LanceDbRow),
      (computePhase artifact tableExists0 st buf evts).1.cache =
        st.cache ++ rowRecords artifact evts := by
  intro evts
  induction evts with
  | nil => intro st buf; simp [computePhase, rowRecords]
  | cons e rest ih =>
    intro st buf
    cases e with
    | row p r sl el cts d =>
      simp only [computePhase]
      rw [ih]
      simp [rowRecords, List.filterMap_cons]
    | eof it =>
      simp only [computePhase]
      rw [ih]
      rw [(addComputedLanceDbRows_state tableExists0 st it buf).1]
      simp [rowRecords, List.filterMap_cons]

theorem tailD_nil (results : RefreshIndexResults) (st : UState)
    (h1 : results.removeTag = []) (h2 : results.del = []) :
    tailD results st = (st, [], []) := by
  unfold tailD
  rw [h1, h2]
  simp [phaseLoop]

theorem filterMap_comp_some {α β : Type _} (l : List α) (f : α → β) :
    l.filterMap (fun x => some (f x)) = l.map f := by
  induction l with
  | nil => rfl
  | cons a t ih => simp [List.filterMap_cons, ih]

theorem rowRecords_fileRowEvents (artifact : String) (item : PathAndCacheKey)
    (out : List Chunk) (vs : List Vec) :
    rowRecords artifact (fileRowEvents 1 0 item 0 out vs) =
      computedRecords artifact item out vs := by
  unfold rowRecords fileRowEvents computedRecords
  rw [List.filterMap_map]
  refine (filterMap_comp_some (List.range out.length) (fun (j : Nat) =>
    (⟨0 + j, item.cacheKey, item.path, artifact, vs.getD j [],
      (out.getD j default).startLine, (out.getD j default).endLine,
      (out.getD j default).content⟩ : CacheRecord))).trans ?_
  simp

theorem map_getD_range {α : Type _} (d : α) :
    ∀ l : List α, (List.range l.length).map (fun j => l.getD j d) = l := by
  intro l
  induction l with
  | nil => rfl
  | cons a t ih =>
    rw [List.length_cons, List.range_succ_eq_map]
    simp only [List.map_cons, List.map_map]
    congr 1

/-- Claim C7: computing `(path, cacheKey)` under an artifact inserts `k`
cache records (one per chunk, uuids minted in order, vectors from the
provider); a subsequent `update` for a different tag (no table yet) whose
`addTag` list contains that `(path, cacheKey)` creates the new tag's table
with exactly `k` rows, reusing each cached record's uuid and vector — and
it does so for every collaborator environment, hence without calling the
embedding provider. -/
theorem C7_compute_then_addTag (uenv : UpdateEnv) (item : PathAndCacheKey)
    (out : List Chunk) (vs : List Vec)
    (hr : uenv.remote = none)
    (hout : uenv.env.chunkDocument item.path (uenv.env.readFile item.path) item.cacheKey = out)
    (hne : ∀ c ∈ out, c.content ≠ "")
    (hlen : out.length ≤ 20)
    (hnil : out ≠ [])
    (hvs : vs.length = out.length)
    (hemb : uenv.env.embed (out.map (·.content)) = .ok (vs.map some))
    (hc0 : uenv.cache0.filter (fun cr =>
      cr.cacheKey == item.cacheKey && cr.path == item.path &&
      cr.artifact_id == artifactId uenv.providerId) = []) :
    (update uenv ⟨[item], [], [], []⟩).cache =
      uenv.cache0 ++ computedRecords (artifactId uenv.providerId) item out vs ∧
    (∀ env2 : Env,
      (update ⟨env2, none, false,
          uenv.cache0 ++ computedRecords (artifactId uenv.providerId) item out vs,
          uenv.providerId⟩ ⟨[], [item], [], []⟩).trace =
        [UEffect.tableCreate (reusedRows (artifactId uenv.providerId) item out vs),
         UEffect.mark [item] IndexResultType.AddTag,
         UEffect.mark [] IndexResultType.RemoveTag,
         UEffect.mark [] IndexResultType.Delete]) ∧
    (reusedRows (artifactId uenv.providerId) item out vs).length = out.length ∧
    (reusedRows (artifactId uenv.providerId) item out vs).map (·.uuid) =
      List.range out.length ∧
    (reusedRows (artifactId uenv.providerId) item out vs).map (·.vector) = vs := by
  have hfs : fileStep uenv.env 1 0 item 0 =
      .ok (fileRowEvents 1 0 item 0 out vs ++ [ComputeEvent.eof item], 0 + out.length) :=
    fileStep_ok uenv.env 1 0 item 0 out vs hout hne hlen hemb
  refine ⟨?_, ?_, ?_, ?_, ?_⟩
  · have h1 : (update uenv ⟨[item], [], [], []⟩).cache =
        uenv.cache0 ++ rowRecords (artifactId uenv.providerId)
          (fileRowEvents 1 0 item 0 out vs) := by
      unfold update
      rw [hr]
      simp only [remotePhase, computeChunks, List.enum, List.enumFrom, List.length_cons,
        List.length_nil, computeChunksAux, initState]
      rw [hfs]
      simp only [List.append_nil]
      rw [tailD_nil ⟨[item], [], [], []⟩ _ rfl rfl]
      simp only [tailA, tailE, phaseLoop]
      rw [computePhase_cache]
      simp [rowRecords, List.filterMap_append]
    rw [h1, rowRecords_fileRowEvents]
  · intro env2
    rw [update_compute_nil_full _ _ rfl rfl]
    have hall : ∀ cr ∈ computedRecords (artifactId uenv.providerId) item out vs,
        (cr.cacheKey == item.cacheKey && cr.path == item.path &&
         cr.artifact_id == artifactId uenv.providerId) = true := by
      intro cr hcr
      rw [computedRecords, List.mem_map] at hcr
      obtain ⟨j, -, rfl⟩ := hcr
      simp
    have hfilter : ((uenv.cache0 ++
        computedRecords (artifactId uenv.providerId) item out vs).filter (fun cr =>
        cr.cacheKey == item.cacheKey && cr.path == item.path &&
        cr.artifact_id == artifactId uenv.providerId)) =
        computedRecords (artifactId uenv.providerId) item out vs := by
      rw [List.filter_append, hc0, List.filter_eq_self.mpr hall]
      simp
    have hlen0 : 0 < (computedRecords (artifactId uenv.providerId) item out vs).length := by
      rw [computedRecords, List.length_map, List.length_range]
      exact List.length_pos.mpr hnil
    show (tailA _ _ _).2.2 ++ (tailD _ (tailA _ _ _).1).2.2 ++ _ ++ (tailE _ _ _).2.2 ++ _ = _
    rw [tailD_nil _ _ rfl rfl]
    simp only [tailA, tailE, phaseLoop, addTagStep, initState]
    rw [hfilter]
    simp only [List.length_map, reusedRows]
    rw [if_pos hlen0]
    simp
  · rw [reusedRows, computedRecords]
    simp
  · rw [reusedRows, computedRecords]
    simp only [List.map_map]
    show (List.range out.length).map (fun (j : Nat) => j) = List.range out.length
    simp
  · rw [reusedRows, computedRecords]
    simp only [List.map_map]
    show (List.range out.length).map (fun (j : Nat) => vs.getD j []) = vs
    rw [← hvs]
    exact map_getD_range [] vs

/-- Witness for claim C7: computing the two-chunk `a.ts` under `p1` then
adding the tag in a fresh-table call (with an unrelated collaborator
environment) creates the table with the two reused rows. -/
theorem C7_compute_then_addTag_witness :
    (update uenvC1 ⟨[⟨"a.ts", "k1"⟩], [], [], []⟩).cache =
      computedRecords (artifactId "p1") ⟨"a.ts", "k1"⟩ outC7 vsC7 ∧
    (update ⟨envC4, none, false,
        computedRecords (artifactId "p1") ⟨"a.ts", "k1"⟩ outC7 vsC7, "p1"⟩
      ⟨[], [⟨"a.ts", "k1"⟩], [], []⟩).trace =
      [UEffect.tableCreate (reusedRows (artifactId "p1") ⟨"a.ts", "k1"⟩ outC7 vsC7),
       UEffect.mark [⟨"a.ts", "k1"⟩] IndexResultType.AddTag,
       UEffect.mark [] IndexResultType.RemoveTag,
       UEffect.mark [] IndexResultType.Delete] ∧
    (reusedRows (artifactId "p1") ⟨"a.ts", "k1"⟩ outC7 vsC7).length = 2 ∧
    (reusedRows (artifactId "p1") ⟨"a.ts", "k1"⟩ outC7 vsC7).map (·.uuid) = List.range 2 ∧
    (reusedRows (artifactId "p1") ⟨"a.ts", "k1"⟩ outC7 vsC7).map (·.vector) = vsC7 := by
  have h := C7_compute_then_addTag uenvC1 ⟨"a.ts", "k1"⟩ outC7 vsC7 rfl rfl
    (by decide) (by decide) (by decide) rfl rfl rfl
  exact ⟨h.1, h.2.1 envC4, h.2.2.1, h.2.2.2.1, h.2.2.2.2⟩

end LanceDb
